import Mathlib

set_option maxHeartbeats 2000000

/-! Verification of the JSON patch engine in src/code_2.py (the jsonpatch
library, version 1.33).  The data model, the six patch operations, the
patch application pipeline and the diff builder are embedded as executable
Lean functions translated from the Python source.  The pointer component
(the jsonpointer library) is not part of the repository sources; it is
modelled from the specification, as marked on the relevant definitions. -/

/-- JSON value as produced by Python json.loads: None, bool, int, str, list,
dict.  Object entries keep insertion order, as Python dicts do.  Numbers are
modelled as integers; floats are outside the scope of this development. -/
inductive Value where
  | null
  | bool (b : Bool)
  | num (n : Int)
  | str (s : String)
  | arr (xs : List Value)
  | obj (kvs : List (String × Value))

/-- Error taxonomy of the patch engine: InvalidJsonPatch, JsonPatchConflict,
JsonPatchTestFailed, JsonPointerException, plus an uncaught Python TypeError
(which escapes the engine entirely). -/
inductive PatchError where
  | invalidPatch
  | conflict
  | testFailed
  | pointerError
  | typeMismatch
deriving DecidableEq

/-- Lookup of a key in a Python dict modelled as an association list
(first matching entry). -/
def lookupV : List (String × Value) → String → Option Value
  | [], _ => none
  | (k1, v1) :: rest, k => if k1 = k then some v1 else lookupV rest k

/-- Python dict assignment d[k] = v: overwrite in place if the key exists,
otherwise append a new entry at the end (insertion order). -/
def setKey : List (String × Value) → String → Value → List (String × Value)
  | [], k, v => [(k, v)]
  | (k1, v1) :: rest, k, v =>
      if k1 = k then (k1, v) :: rest else (k1, v1) :: setKey rest k v

/-- Python del d[k]: remove the (unique) entry with the given key. -/
def eraseKey : List (String × Value) → String → List (String × Value)
  | [], _ => []
  | (k1, v1) :: rest, k => if k1 = k then rest else (k1, v1) :: eraseKey rest k

/-- Python list.insert(n, v); at the call sites n is at most the length. -/
def insertAt : Nat → Value → List Value → List Value
  | 0, v, xs => v :: xs
  | _ + 1, v, [] => [v]
  | n + 1, v, x :: xs => x :: insertAt n v xs

/-- Python del xs[n]; at the call sites n is below the length. -/
def removeAt : Nat → List Value → List Value
  | _, [] => []
  | 0, _ :: xs => xs
  | n + 1, x :: xs => x :: removeAt n xs

theorem sizeOf_lookupV : ∀ (kvs : List (String × Value)) (k : String) (v : Value),
    lookupV kvs k = some v → sizeOf v < sizeOf kvs
  | [], _, _, h => by simp [lookupV] at h
  | (k1, v1) :: rest, k, v, h => by
      simp only [lookupV] at h
      split at h
      · cases h
        simp
        omega
      · have := sizeOf_lookupV rest k v h
        simp
        omega

mutual

/-- Python value equality (the == operator) on JSON values.  Crucially,
bool is a subclass of int in Python, so True == 1 and False == 0.  Dicts
compare by key set and values; lists elementwise. -/
def pyEq : Value → Value → Bool
  | .null, .null => true
  | .bool a, .bool b => a = b
  | .bool a, .num n => (if a then (1 : Int) else 0) = n
  | .num n, .bool b => n = (if b then (1 : Int) else 0)
  | .num a, .num b => a = b
  | .str a, .str b => a = b
  | .arr xs, .arr ys => pyEqList xs ys
  | .obj a, .obj b => a.length = b.length && pyEqObj a b
  | _, _ => false

/-- Python list equality: elementwise ==. -/
def pyEqList : List Value → List Value → Bool
  | [], [] => true
  | x :: xs, y :: ys => pyEq x y && pyEqList xs ys
  | _, _ => false

/-- Python dict equality, one direction: every entry of the first dict is
matched by an ==-equal value under the same key in the second. -/
def pyEqObj : List (String × Value) → List (String × Value) → Bool
  | [], _ => true
  | (k, v) :: rest, b =>
      (match lookupV b k with
       | some w => pyEq v w
       | none => false) && pyEqObj rest b

end

mutual

/-- Number of constructors of a value; a computable size used to supply the
diff comparison's fuel. -/
def vsize : Value → Nat
  | .null => 1
  | .bool _ => 1
  | .num _ => 1
  | .str _ => 1
  | .arr xs => 1 + vsizeList xs
  | .obj kvs => 1 + vsizeObj kvs

def vsizeList : List Value → Nat
  | [] => 1
  | x :: xs => 1 + vsize x + vsizeList xs

def vsizeObj : List (String × Value) → Nat
  | [] => 1
  | (_, v) :: rest => 1 + vsize v + vsizeObj rest

end

/-- Escape one pointer token for display in a pointer string: literal tilde
becomes tilde-0 and literal slash becomes tilde-1.  Modelled from the spec:
the escaping rule of the Pointer component (jsonpointer is not among the
repository sources). -/
def escChars : List Char → List Char
  | [] => []
  | c :: rest =>
      if c = '~' then '~' :: '0' :: escChars rest
      else if c = '/' then '~' :: '1' :: escChars rest
      else c :: escChars rest

def escapeToken (s : String) : String := String.mk (escChars s.data)

/-- Pointer string of a decoded token list (the JsonPointer.path property):
each token is escaped and preceded by a slash; the empty list gives the empty
string, which addresses the document root. -/
def pathStr (parts : List String) : String :=
  parts.foldl (fun acc p => acc ++ "/" ++ escapeToken p) ""

/-- Check that every tilde in the raw pointer text is followed by 0 or 1.
Modelled from the spec: parse fails with InvalidPointer if a tilde escape
sequence is malformed. -/
def escapesOk : List Char → Bool
  | [] => true
  | '~' :: '0' :: rest => escapesOk rest
  | '~' :: '1' :: rest => escapesOk rest
  | '~' :: _ => false
  | _ :: rest => escapesOk rest

/-- Decode the escapes of one raw token (text between slashes); assumes the
escapes were checked. -/
def decChars : List Char → List Char
  | [] => []
  | '~' :: '0' :: rest => '~' :: decChars rest
  | '~' :: '1' :: rest => '/' :: decChars rest
  | c :: rest => c :: decChars rest

/-- Split the character list on slashes. -/
def splitSlash (cs : List Char) : List String :=
  match cs with
  | [] => [""]
  | '/' :: rest => "" :: splitSlash rest
  | c :: rest =>
      match splitSlash rest with
      | [] => [String.mk [c]]
      | t :: ts => (String.mk (c :: t.data)) :: ts

/-- Parse a pointer string into its decoded token list.  Modelled from the
spec: split on slash, decode each token, allow and drop the leading empty
token; the empty string is the root pointer; a pointer that does not start
with a slash, or a malformed tilde escape, is a pointer error. -/
def parsePointer (s : String) : Except PatchError (List String) :=
  if escapesOk s.data = false then .error .pointerError
  else match s.data with
    | [] => .ok []
    | '/' :: rest => .ok ((splitSlash rest).map (fun t => String.mk (decChars t.data)))
    | _ => .error .pointerError

/-- Parse a token as a non-negative array index: nonempty and all digits.
Modelled from the spec: a token that parses as a non-negative integer is
treated as an array index when resolving against an array. -/
def digitsToNat : List Char → Nat → Option Nat
  | [], acc => some acc
  | c :: rest, acc =>
      if c.isDigit then digitsToNat rest (acc * 10 + (c.toNat - 48)) else none

def parseArrayIndex (s : String) : Option Nat :=
  match s.data with
  | [] => none
  | cs => digitsToNat cs 0

/-- Result of interpreting the final pointer token against its parent
container: an object key, an array index, or the end-of-array marker. -/
inductive Token where
  | key (s : String)
  | idx (n : Nat)
  | dash
deriving DecidableEq

/-- Interpret a token against the container it indexes, following the key
typing rule: the type of the container determines the interpretation.
Modelled from the spec: for an array the token must be the dash or parse as
a non-negative index; for an object it is a literal key; resolve_parent
itself returns the final token uninterpreted for non-container parents (the
operations then reject the wrong container type themselves). -/
def getPart (doc : Value) (t : String) : Except PatchError Token :=
  match doc with
  | .arr _ =>
      if t = "-" then .ok .dash
      else match parseArrayIndex t with
        | some n => .ok (.idx n)
        | none => .error .pointerError
  | _ => .ok (.key t)

/-- Walk one token into a container.  Modelled from the spec: index lookup
for arrays, string key lookup for objects; a missing key, an out-of-range
index, or a non-container is a pointer resolution error.  The dash is valid
only as a final Add target, so walking it is an error. -/
def walkStep (doc : Value) (t : String) : Except PatchError Value :=
  match doc with
  | .obj kvs =>
      match lookupV kvs t with
      | some v => .ok v
      | none => .error .pointerError
  | .arr xs =>
      match parseArrayIndex t with
      | some n => if h : n < xs.length then .ok (xs.get ⟨n, h⟩) else .error .pointerError
      | none => .error .pointerError
  | _ => .error .pointerError

/-- The to_last resolution: walk all tokens except the last, and return the
parent container together with the interpreted final token; the empty
pointer returns the document itself and no token (operate on the root).
Modelled from the spec (resolve_parent). -/
def toLast (doc : Value) : List String → Except PatchError (Value × Option Token)
  | [] => .ok (doc, none)
  | t :: rest =>
      match rest with
      | [] =>
          match getPart doc t with
          | .ok tok => .ok (doc, some tok)
          | .error e => .error e
      | _ :: _ =>
          match walkStep doc t with
          | .ok d => toLast d rest
          | .error e => .error e

/-- Full resolution of a pointer to the value it addresses (to_last followed
by a final walk). -/
def resolveVal (doc : Value) : List String → Except PatchError Value
  | [] => .ok doc
  | t :: rest =>
      match walkStep doc t with
      | .ok d => resolveVal d rest
      | .error e => .error e

/-- Apply a container-level mutation f at the parent addressed by the
pointer, rebuilding the document along the walked path.  This is the
functional rendering of the Python pattern: subobj, part = pointer.to_last
(obj) followed by an in-place mutation of subobj. -/
def opAtParent (f : Value → Option Token → Except PatchError Value)
    (doc : Value) : List String → Except PatchError Value
  | [] => f doc none
  | t :: rest =>
      match rest with
      | [] =>
          match getPart doc t with
          | .ok tok => f doc (some tok)
          | .error e => .error e
      | _ :: _ =>
          match doc with
          | .obj kvs =>
              match lookupV kvs t with
              | some v =>
                  match opAtParent f v rest with
                  | .ok v2 => .ok (.obj (setKey kvs t v2))
                  | .error e => .error e
              | none => .error .pointerError
          | .arr xs =>
              match parseArrayIndex t with
              | some n =>
                  if h : n < xs.length then
                    match opAtParent f (xs.get ⟨n, h⟩) rest with
                    | .ok v2 => .ok (.arr (xs.set n v2))
                    | .error e => .error e
                  else .error .pointerError
              | none => .error .pointerError
          | _ => .error .pointerError

/-- Replace the parent container addressed by the pointer with a new
container, rebuilding the spine.  Used only to state what a successful
opAtParent run returns; the default branches are unreachable whenever
toLast succeeds on the same pointer. -/
def placeAt (doc : Value) : List String → Value → Value
  | [], c2 => c2
  | t :: rest, c2 =>
      match rest with
      | [] => c2
      | _ :: _ =>
          match doc with
          | .obj kvs =>
              .obj (setKey kvs t (placeAt ((lookupV kvs t).getD .null) rest c2))
          | .arr xs =>
              match parseArrayIndex t with
              | some n => .arr (xs.set n (placeAt (xs.getD n .null) rest c2))
              | none => doc
          | _ => doc

mutual

/-- Python copy.deepcopy on a JSON tree (used by CopyOperation and by
JsonPatch.apply when in_place is false). -/
def deepcopy : Value → Value
  | .null => .null
  | .bool b => .bool b
  | .num n => .num n
  | .str s => .str s
  | .arr xs => .arr (deepcopyList xs)
  | .obj kvs => .obj (deepcopyObj kvs)

def deepcopyList : List Value → List Value
  | [] => []
  | x :: xs => deepcopy x :: deepcopyList xs

def deepcopyObj : List (String × Value) → List (String × Value)
  | [] => []
  | (k, v) :: rest => (k, deepcopy v) :: deepcopyObj rest

end

/-- Escape the characters of a string for its JSON serialization: backslash
and double quote are escaped (the subset of json.dumps escaping that the
documents in this development exercise). -/
def dumpsEsc : List Char → List Char
  | [] => []
  | c :: rest =>
      if c = '"' ∨ c = '\\' then '\\' :: c :: dumpsEsc rest else c :: dumpsEsc rest

mutual

/-- Python json.dumps with default options (separators comma-space and
colon-space, insertion order preserved); the canonical serialization the
diff builder uses for its type-sensitive equality check. -/
def dumpsV : Value → String
  | .null => "null"
  | .bool b => if b then "true" else "false"
  | .num n => toString n
  | .str s => "\"" ++ String.mk (dumpsEsc s.data) ++ "\""
  | .arr xs => "[" ++ dumpsList xs ++ "]"
  | .obj kvs => "\x7b" ++ dumpsObj kvs ++ "\x7d"

def dumpsList : List Value → String
  | [] => ""
  | [x] => dumpsV x
  | x :: rest => dumpsV x ++ ", " ++ dumpsList rest

def dumpsObj : List (String × Value) → String
  | [] => ""
  | [(k, v)] => "\"" ++ String.mk (dumpsEsc k.data) ++ "\": " ++ dumpsV v
  | (k, v) :: rest =>
      "\"" ++ String.mk (dumpsEsc k.data) ++ "\": " ++ dumpsV v ++ ", " ++ dumpsObj rest

end

/-- AddOperation.apply at the resolved parent container (code_2.py lines
412 to 435).  On an array the dash appends, an index at most the length
inserts (shifting later elements right), a larger index is a Conflict.  On
an object a missing token replaces the root, otherwise the key is set.  On
a scalar parent the root case is an uncaught TypeError and any other token
is a Conflict. -/
def addF (v : Value) (c : Value) (tok : Option Token) : Except PatchError Value :=
  match c, tok with
  | .arr xs, some .dash => .ok (.arr (xs ++ [v]))
  | .arr xs, some (.idx n) =>
      if n > xs.length then .error .conflict
      else .ok (.arr (insertAt n v xs))
  | .arr _, some (.key _) => .error .typeMismatch
  | .arr _, none => .error .typeMismatch
  | .obj _, none => .ok v
  | .obj kvs, some (.key s) => .ok (.obj (setKey kvs s v))
  | .obj _, some _ => .error .typeMismatch
  | _, none => .error .typeMismatch
  | _, some _ => .error .conflict

/-- RemoveOperation.apply at the resolved parent container (code_2.py lines
302 to 313).  An array parent with a non-integer token is a pointer error
(the explicit Sequence check); deleting a missing key or an out-of-range
index is a Conflict; a scalar parent is an uncaught TypeError. -/
def removeF (c : Value) (tok : Option Token) : Except PatchError Value :=
  match c, tok with
  | .arr xs, some (.idx n) =>
      if n < xs.length then .ok (.arr (removeAt n xs)) else .error .conflict
  | .arr _, _ => .error .pointerError
  | .obj kvs, some (.key s) =>
      if (lookupV kvs s).isSome then .ok (.obj (eraseKey kvs s)) else .error .conflict
  | .obj _, _ => .error .conflict
  | _, _ => .error .typeMismatch

/-- The final token is the literal dash (against an array it was interpreted
as the dash token, against any other container it stays the one-character
key). -/
def isDashTok : Option Token → Bool
  | some .dash => true
  | some (.key s) => s = "-"
  | _ => false

/-- ReplaceOperation.apply at the resolved parent container (code_2.py lines
560 to 583).  An empty pointer replaces the whole document; a dash token is
an InvalidJsonPatch; an out-of-range index or a missing key is a Conflict;
a scalar parent (wrong container type) is a Conflict. -/
def replaceF (v : Value) (c : Value) (tok : Option Token) : Except PatchError Value :=
  match tok with
  | none => .ok v
  | some tk =>
      if isDashTok (some tk) then .error .invalidPatch
      else match c, tk with
        | .arr xs, .idx n =>
            if n ≥ xs.length then .error .conflict else .ok (.arr (xs.set n v))
        | .arr _, _ => .error .typeMismatch
        | .obj kvs, .key s =>
            if (lookupV kvs s).isSome then .ok (.obj (setKey kvs s v))
            else .error .conflict
        | .obj _, _ => .error .typeMismatch
        | _, _ => .error .conflict

def addApply (doc : Value) (parts : List String) (v : Value) : Except PatchError Value :=
  opAtParent (addF v) doc parts

def removeApply (doc : Value) (parts : List String) : Except PatchError Value :=
  opAtParent removeF doc parts

def replaceApply (doc : Value) (parts : List String) (v : Value) : Except PatchError Value :=
  opAtParent (replaceF v) doc parts

/-- TestOperation.apply (code_2.py lines 836 to 856): resolve the path,
converting a pointer resolution failure into JsonPatchTestFailed; then the
operation must carry a value member; finally compare with Python equality
and fail the test on mismatch, returning the document unchanged on match. -/
def testApply (doc : Value) (parts : List String) (v? : Option Value) :
    Except PatchError Value :=
  match resolveVal doc parts with
  | .error .pointerError => .error .testFailed
  | .error e => .error e
  | .ok val =>
      match v? with
      | none => .error .invalidPatch
      | some v => if pyEq val v then .ok doc else .error .testFailed

/-- Python subscript subobj[part] with KeyError and IndexError mapped to
Conflict, as MoveOperation.apply and CopyOperation.apply catch them; other
shapes raise an uncaught TypeError (indexing a list with None or the dash
string, or subscripting a scalar). -/
def fetchTok (c : Value) (tok : Option Token) : Except PatchError Value :=
  match c, tok with
  | .obj kvs, some (.key s) =>
      match lookupV kvs s with
      | some v => .ok v
      | none => .error .conflict
  | .obj _, _ => .error .conflict
  | .arr xs, some (.idx n) =>
      if h : n < xs.length then .ok (xs.get ⟨n, h⟩) else .error .conflict
  | .arr _, _ => .error .typeMismatch
  | _, _ => .error .typeMismatch

def isObjV : Value → Bool
  | .obj _ => true
  | _ => false

def isScalarV : Value → Bool
  | .arr _ => false
  | .obj _ => false
  | _ => true

/-- MoveOperation.apply (code_2.py lines 642 to 676): look up the value at
the from pointer (missing key or index is a Conflict); source equal to
target is a no-op; moving into one's own child below a mapping parent is a
Conflict; otherwise delegate to RemoveOperation at from followed by
AddOperation at path with the looked-up value. -/
def moveApply (doc : Value) (fromParts pathParts : List String) :
    Except PatchError Value :=
  match toLast doc fromParts with
  | .error e => .error e
  | .ok (c, tok) =>
      match fetchTok c tok with
      | .error e => .error e
      | .ok v =>
          if fromParts = pathParts then .ok doc
          else if isObjV c ∧ fromParts.isPrefixOf pathParts then .error .conflict
          else
            match removeApply doc fromParts with
            | .error e => .error e
            | .ok d => addApply d pathParts v

/-- CopyOperation.apply (code_2.py lines 907 to 925): deep-copy the value at
the from pointer (missing key or index is a Conflict) and delegate to
AddOperation at path with the copy. -/
def copyApply (doc : Value) (fromParts pathParts : List String) :
    Except PatchError Value :=
  match toLast doc fromParts with
  | .error e => .error e
  | .ok (c, tok) =>
      match fetchTok c tok with
      | .error e => .error e
      | .ok v => addApply doc pathParts (deepcopy v)

/-- A raw patch operation object as it appears on the wire: a JSON object
whose members of interest are op, path, value and from; each may be absent.
This is the dict the Python operation classes wrap. -/
structure RawOp where
  op : Option Value
  path : Option Value
  value : Option Value
  fromField : Option Value

def mkAdd (p : String) (v : Value) : RawOp :=
  ⟨some (.str "add"), some (.str p), some v, none⟩

def mkRemove (p : String) : RawOp :=
  ⟨some (.str "remove"), some (.str p), none, none⟩

def mkReplace (p : String) (v : Value) : RawOp :=
  ⟨some (.str "replace"), some (.str p), some v, none⟩

def mkMove (f p : String) : RawOp :=
  ⟨some (.str "move"), some (.str p), none, some (.str f)⟩

def mkCopy (f p : String) : RawOp :=
  ⟨some (.str "copy"), some (.str p), none, some (.str f)⟩

def mkTest (p : String) (v : Value) : RawOp :=
  ⟨some (.str "test"), some (.str p), some v, none⟩

/-- The keys of the JsonPatch.operations dispatch table. -/
def knownOps : List String := ["remove", "add", "replace", "move", "test", "copy"]

/-- Construction-time validation of one raw operation: what
JsonPatch._get_operation (code_2.py lines 1209 to 1244) checks (op present,
a string, and recognized) followed by what PatchOperation.__init__ (lines
153 to 199) checks (path present; a non-string path is an InvalidJsonPatch
via the TypeError catch; the pointer is parsed here, so a malformed pointer
string raises a pointer error already at construction).  No other member is
checked at construction: the value and from members are only fetched when
the operation is applied. -/
def checkOp (r : RawOp) : Except PatchError (List String) :=
  match r.op with
  | none => .error .invalidPatch
  | some (.str s) =>
      if knownOps.contains s then
        match r.path with
        | some (.str p) => parsePointer p
        | some _ => .error .invalidPatch
        | none => .error .invalidPatch
      else .error .invalidPatch
  | some _ => .error .invalidPatch

/-- JsonPatch.__init__ (code_2.py lines 941 to 990): retrieve every patch
element through _get_operation, failing fast on the first invalid one. -/
def validatePatch : List RawOp → Except PatchError Unit
  | [] => .ok ()
  | r :: rest =>
      match checkOp r with
      | .ok _ => validatePatch rest
      | .error e => .error e

/-- Apply one raw operation to a document: the dispatch from the op string
to the operation class followed by that class's apply method, fetching the
value and from members exactly when the Python methods do. -/
def applyRawOp (doc : Value) (r : RawOp) : Except PatchError Value :=
  match r.op, r.path with
  | some (.str s), some (.str p) =>
      (match parsePointer p with
       | .error e => .error e
       | .ok parts =>
          if s = "add" then
            match r.value with
            | none => .error .invalidPatch
            | some v => addApply doc parts v
          else if s = "remove" then removeApply doc parts
          else if s = "replace" then
            match r.value with
            | none => .error .invalidPatch
            | some v => replaceApply doc parts v
          else if s = "move" then
            match r.fromField with
            | none => .error .invalidPatch
            | some (.str f) =>
                match parsePointer f with
                | .error e => .error e
                | .ok fparts => moveApply doc fparts parts
            | some _ => .error .pointerError
          else if s = "copy" then
            match r.fromField with
            | none => .error .invalidPatch
            | some (.str f) =>
                match parsePointer f with
                | .error e => .error e
                | .ok fparts => copyApply doc fparts parts
            | some _ => .error .pointerError
          else if s = "test" then testApply doc parts r.value
          else .error .invalidPatch)
  | _, _ => .error .invalidPatch

/-- The operation loop of JsonPatch.apply: feed the document through each
operation in order, aborting on the first failure. -/
def applyOpsLoop : Value → List RawOp → Except PatchError Value
  | doc, [] => .ok doc
  | doc, r :: rest =>
      match applyRawOp doc r with
      | .ok d => applyOpsLoop d rest
      | .error e => .error e

/-- The complete pipeline behind apply_patch: construct the JsonPatch
(validating its structure) and then apply it to the document. -/
def jsonPatchApply (doc : Value) (patch : List RawOp) : Except PatchError Value :=
  match validatePatch patch with
  | .ok _ => applyOpsLoop doc patch
  | .error e => .error e

/-- The operation loop with the working document made explicit: the result
is the working document when the loop stops (fully patched on success, the
partially patched state at the first failure) together with the error if
one aborted the loop.  This is the state JsonPatch.apply mutates in place. -/
def applyOpsTrace : Value → List RawOp → Value × Option PatchError
  | doc, [] => (doc, none)
  | doc, r :: rest =>
      match applyRawOp doc r with
      | .ok d => applyOpsTrace d rest
      | .error e => (doc, some e)

/-- JsonPatch.apply (code_2.py lines 1162 to 1207) as seen by the caller:
the returned pair is (the document the caller's variable still holds after
the call, the outcome of the call).  With in_place true the operations
mutate the caller's document, so the caller is left with the possibly
partially patched state; with in_place false the engine first deep-copies
the document and mutates only the copy. -/
def applyCall (doc : Value) (patch : List RawOp) (inPlace : Bool) :
    Value × (Value × Option PatchError) :=
  if inPlace then
    let r := applyOpsTrace doc patch
    (r.1, r)
  else
    let r := applyOpsTrace (deepcopy doc) patch
    (doc, r)

/-- Python runtime type tag of a value, as used in the typed index keys
(value, type(value)) of the diff builder.  Note that bool and int are
distinct types even though 1 == True. -/
inductive PyTag where
  | tNone
  | tBool
  | tInt
  | tStr
  | tList
  | tDict
deriving DecidableEq

def tagOf : Value → PyTag
  | .null => .tNone
  | .bool _ => .tBool
  | .num _ => .tInt
  | .str _ => .tStr
  | .arr _ => .tList
  | .obj _ => .tDict

/-- A tuple (value, type(value)) is hashable exactly when the value is a
scalar; lists and dicts raise TypeError in the primary index and fall back
to the linear-scan storage. -/
def isHashable : Value → Bool
  | .arr _ => false
  | .obj _ => false
  | _ => true

/-- Python equality of two typed keys (value, type(value)): the values
compare with == and the types must be identical. -/
def typedKeyEq (a b : Value × PyTag) : Bool :=
  pyEq a.1 b.1 && a.2 = b.2

/-- A key as passed to the item_added and item_removed events: an integer
index (list diffs) or a string key (dict diffs). -/
inductive KeyT where
  | ik (n : Nat)
  | sk (s : String)

/-- The _path_join of code_2.py line 1772, at the level of decoded token
lists: appending str(key) to the path (None appends nothing). -/
def partsJoin (path : List String) (key : Option KeyT) : List String :=
  match key with
  | none => path
  | some (.ik n) => path ++ [toString n]
  | some (.sk s) => path ++ [s]

/-- A pending edit of the diff builder: the synthesized operation held by
one node of the doubly linked list. -/
inductive POp where
  | padd (parts : List String) (value : Value)
  | premove (parts : List String)
  | preplace (parts : List String) (value : Value)
  | pmove (fromParts : List String) (parts : List String)

/-- The decoded token list of the operation's path member. -/
def POp.pathParts : POp → List String
  | .padd p _ => p
  | .premove p => p
  | .preplace p _ => p
  | .pmove _ p => p

/-- The operation's location: the escaped pointer string of its path (the
PatchOperation.location attribute). -/
def POp.loc (op : POp) : String := pathStr op.pathParts

/-- The PatchOperation.path property: the plain slash join of all tokens
except the last (no re-escaping in the source). -/
def parentJoin (parts : List String) : String :=
  String.intercalate "/" parts.dropLast

/-- The PatchOperation.key property when it is an int: the final token
parsed by Python int(), or nothing when that raises. -/
def parseIntStr (s : String) : Option Int :=
  match s.data with
  | '-' :: c :: rest => (digitsToNat (c :: rest) 0).map (fun n => -(n : Int))
  | _ => (parseArrayIndex s).map (fun n => (n : Int))

def keyIntOf (parts : List String) : Option Int :=
  parseIntStr (parts.getLastD "")

/-- The PatchOperation.key setter: overwrite the final token with str(k). -/
def setLastInt (parts : List String) (k : Int) : List String :=
  parts.dropLast ++ [toString k]

/-- RemoveOperation._on_undo_remove / AddOperation._on_undo_remove /
ReplaceOperation._on_undo_remove / MoveOperation._on_undo_remove
(code_2.py lines 315 to 335, 437 to 459, 585 to 586, 734 to 760): adjust
this pending operation's recorded index and the threaded key when a pending
remove at the same parent was undone.  A non-integer key on a matching
parent would raise in Python; such pairs do not occur in the executions
this development evaluates and are modelled as leaving both unchanged. -/
def onUndoRemove (v : POp) (path : String) (k : Int) : POp × Int :=
  match v with
  | .premove p =>
      if parentJoin p = path then
        match keyIntOf p with
        | some selfK => if selfK ≥ k then (.premove (setLastInt p (selfK + 1)), k) else (v, k - 1)
        | none => (v, k)
      else (v, k)
  | .padd p val =>
      if parentJoin p = path then
        match keyIntOf p with
        | some selfK => if selfK > k then (.padd (setLastInt p (selfK + 1)) val, k) else (v, k + 1)
        | none => (v, k)
      else (v, k)
  | .preplace _ _ => (v, k)
  | .pmove f p =>
      let step1 : List String × Int :=
        if parentJoin f = path then
          match keyIntOf f with
          | some fromK => if fromK ≥ k then (setLastInt f (fromK + 1), k) else (f, k - 1)
          | none => (f, k)
        else (f, k)
      let step2 : List String × Int :=
        if parentJoin p = path then
          match keyIntOf p with
          | some selfK =>
              if selfK > step1.2 then (setLastInt p (selfK + 1), step1.2)
              else (p, step1.2 + 1)
          | none => (p, step1.2)
        else (p, step1.2)
      (.pmove step1.1 step2.1, step2.2)

/-- The _on_undo_add counterparts (code_2.py lines 337 to 358, 461 to 482,
588 to 589, 762 to 790). -/
def onUndoAdd (v : POp) (path : String) (k : Int) : POp × Int :=
  match v with
  | .premove p =>
      if parentJoin p = path then
        match keyIntOf p with
        | some selfK => if selfK > k then (.premove (setLastInt p (selfK - 1)), k) else (v, k - 1)
        | none => (v, k)
      else (v, k)
  | .padd p val =>
      if parentJoin p = path then
        match keyIntOf p with
        | some selfK => if selfK > k then (.padd (setLastInt p (selfK - 1)) val, k) else (v, k + 1)
        | none => (v, k)
      else (v, k)
  | .preplace _ _ => (v, k)
  | .pmove f p =>
      let step1 : List String × Int :=
        if parentJoin f = path then
          match keyIntOf f with
          | some fromK => if fromK > k then (setLastInt f (fromK - 1), k) else (f, k - 1)
          | none => (f, k)
        else (f, k)
      let step2 : List String × Int :=
        if parentJoin p = path then
          match keyIntOf p with
          | some selfK =>
              if selfK > step1.2 then (setLastInt p (selfK - 1), step1.2)
              else (p, step1.2 + 1)
          | none => (p, step1.2)
        else (p, step1.2)
      (.pmove step1.1 step2.1, step2.2)

/-- State of one DiffBuilder run: the id counter, the pending-edit node
list in link order (the doubly linked list with sentinel root, flattened),
the two hashable typed-key indexes (dicts from typed key to a stack of
node ids) and the two linear-scan fallback storages for unhashable
values. -/
structure DState where
  counter : Nat
  nodes : List (Nat × POp)
  storeAdd : List ((Value × PyTag) × List Nat)
  storeRemove : List ((Value × PyTag) × List Nat)
  store2Add : List ((Value × PyTag) × Nat)
  store2Remove : List ((Value × PyTag) × Nat)

def initDState : DState := ⟨0, [], [], [], [], []⟩

inductive STKind where
  | stAdd
  | stRemove

/-- Append a node id under a typed key in the primary index. -/
def mapAppend : List ((Value × PyTag) × List Nat) → (Value × PyTag) → Nat →
    List ((Value × PyTag) × List Nat)
  | [], tk, n => [(tk, [n])]
  | (key, ids) :: rest, tk, n =>
      if typedKeyEq key tk then (key, ids ++ [n]) :: rest
      else (key, ids) :: mapAppend rest tk n

/-- Pop the most recently stored node id under a typed key in the primary
index (list.pop pops from the end; an empty stack yields nothing). -/
def mapPop : List ((Value × PyTag) × List Nat) → (Value × PyTag) →
    Option Nat × List ((Value × PyTag) × List Nat)
  | [], _ => (none, [])
  | (key, ids) :: rest, tk =>
      if typedKeyEq key tk then
        match ids.getLast? with
        | some n => (some n, (key, ids.dropLast) :: rest)
        | none => (none, (key, ids) :: rest)
      else
        match mapPop rest tk with
        | (r, rest2) => (r, (key, ids) :: rest2)

/-- Scan the fallback storage from the end for the last entry whose typed
key compares equal, remove it and return its node id (take_index's except
branch, code_2.py lines 1364 to 1368). -/
def scanPop : List ((Value × PyTag) × Nat) → (Value × PyTag) →
    Option Nat × List ((Value × PyTag) × Nat)
  | [], _ => (none, [])
  | (key, n) :: rest, tk =>
      match scanPop rest tk with
      | (some m, rest2) => (some m, (key, n) :: rest2)
      | (none, _) =>
          if typedKeyEq key tk then (some n, rest) else (none, (key, n) :: rest)

/-- DiffBuilder.store_index (code_2.py lines 1279 to 1322). -/
def storeIndex (item : Value) (nid : Nat) (st : STKind) (s : DState) : DState :=
  let tk := (item, tagOf item)
  if isHashable item then
    match st with
    | .stAdd => { s with storeAdd := mapAppend s.storeAdd tk nid }
    | .stRemove => { s with storeRemove := mapAppend s.storeRemove tk nid }
  else
    match st with
    | .stAdd => { s with store2Add := s.store2Add ++ [(tk, nid)] }
    | .stRemove => { s with store2Remove := s.store2Remove ++ [(tk, nid)] }

/-- DiffBuilder.take_index (code_2.py lines 1324 to 1368). -/
def takeIndex (item : Value) (st : STKind) (s : DState) : Option Nat × DState :=
  let tk := (item, tagOf item)
  if isHashable item then
    match st with
    | .stAdd =>
        match mapPop s.storeAdd tk with
        | (r, st2) => (r, { s with storeAdd := st2 })
    | .stRemove =>
        match mapPop s.storeRemove tk with
        | (r, st2) => (r, { s with storeRemove := st2 })
  else
    match st with
    | .stAdd =>
        match scanPop s.store2Add tk with
        | (r, st2) => (r, { s with store2Add := st2 })
    | .stRemove =>
        match scanPop s.store2Remove tk with
        | (r, st2) => (r, { s with store2Remove := st2 })

/-- DiffBuilder.insert (code_2.py lines 1370 to 1391): append a node at the
end of the linked list, returning its id. -/
def insertNode (op : POp) (s : DState) : Nat × DState :=
  (s.counter,
   { s with counter := s.counter + 1, nodes := s.nodes ++ [(s.counter, op)] })

/-- DiffBuilder.remove (code_2.py lines 1393 to 1407): unlink a node. -/
def removeNode (s : DState) (nid : Nat) : DState :=
  { s with nodes := s.nodes.filter (fun p => p.1 != nid) }

def getNode (s : DState) (nid : Nat) : Option POp :=
  (s.nodes.find? (fun p => p.1 == nid)).map (fun p => p.2)

/-- Overwrite the operation held by a node (the new_index[2] = new_op
assignment in _item_removed). -/
def replaceNodeOp (s : DState) (nid : Nat) (op : POp) : DState :=
  { s with nodes := s.nodes.map (fun p => if p.1 == nid then (p.1, op) else p) }

/-- The renumbering loop of _item_added: iterate the nodes after the given
node (iter_from), updating each in place and threading the paired
operation's key through _on_undo_remove. -/
def undoLoopRemove : List (Nat × POp) → String → Int → List (Nat × POp) × Int
  | [], _, k => ([], k)
  | (nid, v) :: rest, path, k =>
      match onUndoRemove v path k with
      | (v2, k2) =>
          match undoLoopRemove rest path k2 with
          | (rest2, k3) => ((nid, v2) :: rest2, k3)

/-- The renumbering loop of _item_removed, through _on_undo_add. -/
def undoLoopAdd : List (Nat × POp) → String → Int → List (Nat × POp) × Int
  | [], _, k => ([], k)
  | (nid, v) :: rest, path, k =>
      match onUndoAdd v path k with
      | (v2, k2) =>
          match undoLoopAdd rest path k2 with
          | (rest2, k3) => ((nid, v2) :: rest2, k3)

/-- Run the undo-remove loop over the part of the node list after the node
with the given id, splicing the updated nodes back. -/
def applyUndoLoopRemove (s : DState) (nid : Nat) (path : String) (k : Int) :
    DState × Int :=
  let pre := s.nodes.takeWhile (fun p => p.1 != nid)
  match s.nodes.dropWhile (fun p => p.1 != nid) with
  | [] => (s, k)
  | x :: suffix =>
      match undoLoopRemove suffix path k with
      | (suffix2, k2) => ({ s with nodes := pre ++ x :: suffix2 }, k2)

def applyUndoLoopAdd (s : DState) (nid : Nat) (path : String) (k : Int) :
    DState × Int :=
  let pre := s.nodes.takeWhile (fun p => p.1 != nid)
  match s.nodes.dropWhile (fun p => p.1 != nid) with
  | [] => (s, k)
  | x :: suffix =>
      match undoLoopAdd suffix path k with
      | (suffix2, k2) => ({ s with nodes := pre ++ x :: suffix2 }, k2)

/-- DiffBuilder._item_added (code_2.py lines 1464 to 1507): pair this added
value with a pending remove of an ==-equal value if one is indexed; after
renumbering (only when both keys are ints), unlink the pending remove and,
unless the two locations coincide (pure cancellation), record a move from
the remove's location to the new location.  Without a pairable remove,
record a pending add and index it. -/
def itemAdded (path : List String) (key : KeyT) (item : Value) (s : DState) :
    DState :=
  match takeIndex item .stRemove s with
  | (some nid, s1) =>
      match getNode s1 nid with
      | some op =>
          let renumbered : DState × List String :=
            match keyIntOf op.pathParts, key with
            | some opKey, .ik _ =>
                match applyUndoLoopRemove s1 nid (parentJoin op.pathParts) opKey with
                | (s2, k2) => (s2, setLastInt op.pathParts k2)
            | _, _ => (s1, op.pathParts)
          let s3 := removeNode renumbered.1 nid
          if pathStr renumbered.2 ≠ pathStr (partsJoin path (some key)) then
            (insertNode (.pmove renumbered.2 (partsJoin path (some key))) s3).2
          else s3
      | none => s1
  | (none, s1) =>
      match insertNode (.padd (partsJoin path (some key)) item) s1 with
      | (nid, s2) => storeIndex item nid .stAdd s2

/-- DiffBuilder._item_removed (code_2.py lines 1509 to 1559): record a
pending remove; if a pending add of an ==-equal value is indexed, renumber
(only when the add points into a list of the destination document), unlink
the add and either turn the new remove node into a move (from the remove's
location to the add's location) or, when the locations coincide, cancel
both.  Without a pairable add, index the new remove. -/
def itemRemoved (dstDoc : Value) (path : List String) (key : KeyT)
    (item : Value) (s : DState) : DState :=
  let newParts := partsJoin path (some key)
  match takeIndex item .stAdd s with
  | (idx?, s1) =>
      match insertNode (.premove newParts) s1 with
      | (newId, s2) =>
          match idx? with
          | some addId =>
              match getNode s2 addId with
              | some op =>
                  let renumbered : DState × List String :=
                    match toLast dstDoc op.pathParts, keyIntOf op.pathParts with
                    | .ok (.arr _, _), some opKey =>
                        match applyUndoLoopAdd s2 addId (parentJoin op.pathParts) opKey with
                        | (s3, k3) => (s3, setLastInt op.pathParts k3)
                    | _, _ => (s2, op.pathParts)
                  let s4 := removeNode renumbered.1 addId
                  match getNode s4 newId with
                  | some newOp =>
                      if newOp.loc ≠ pathStr renumbered.2 then
                        replaceNodeOp s4 newId (.pmove newOp.pathParts renumbered.2)
                      else removeNode s4 newId
                  | none => s4
              | none => storeIndex item newId .stRemove s2
          | none => storeIndex item newId .stRemove s2

/-- DiffBuilder._item_replaced (code_2.py lines 1561 to 1596): record a
pending replace. -/
def itemReplaced (path : List String) (key : Option KeyT) (item : Value)
    (s : DState) : DState :=
  (insertNode (.preplace (partsJoin path key) item) s).2

mutual

/-- DiffBuilder._compare_values (code_2.py lines 1697 to 1769): recurse into
two dicts or two lists; otherwise compare the canonical json.dumps
serializations (type sensitive, so 1 and True differ) and record a replace
on mismatch.  The comparison functions carry fuel bounding the call depth;
since every mutual call strictly shrinks the compared values every few
steps, the generous fuel the fromDiff wrapper supplies never reaches a zero
branch. -/
def compareValuesF : Nat → Value → List String → Option KeyT → Value → Value →
    DState → DState
  | 0, _, _, _, _, _, s => s
  | fuel + 1, dstDoc, path, key, src, dst, s =>
      match src, dst with
      | .obj a, .obj b => compareDictsF fuel dstDoc (partsJoin path key) a b s
      | .arr xs, .arr ys => compareListsF fuel dstDoc (partsJoin path key) xs ys s
      | _, _ =>
          if dumpsV src = dumpsV dst then s
          else itemReplaced path key dst s

/-- DiffBuilder._compare_dicts (code_2.py lines 1598 to 1624): removed keys
first, added keys second, then recurse on the common keys. -/
def compareDictsF : Nat → Value → List String → List (String × Value) →
    List (String × Value) → DState → DState
  | 0, _, _, _, _, s => s
  | fuel + 1, dstDoc, path, skvs, dkvs, s =>
      let s1 := (skvs.filter (fun kv => (lookupV dkvs kv.1).isNone)).foldl
          (fun st kv => itemRemoved dstDoc path (.sk kv.1) kv.2 st) s
      let s2 := (dkvs.filter (fun kv => (lookupV skvs kv.1).isNone)).foldl
          (fun st kv => itemAdded path (.sk kv.1) kv.2 st) s1
      compareCommonF fuel dstDoc path skvs dkvs s2

/-- The common-key loop of _compare_dicts: for each source entry whose key
also occurs in the destination, recurse through _compare_values. -/
def compareCommonF : Nat → Value → List String → List (String × Value) →
    List (String × Value) → DState → DState
  | 0, _, _, _, _, s => s
  | _ + 1, _, _, [], _, s => s
  | fuel + 1, dstDoc, path, (k, sv) :: rest, dkvs, s =>
      match lookupV dkvs k with
      | some dv =>
          compareCommonF fuel dstDoc path rest dkvs
            (compareValuesF fuel dstDoc path (some (.sk k)) sv dv s)
      | none => compareCommonF fuel dstDoc path rest dkvs s

/-- DiffBuilder._compare_lists (code_2.py lines 1626 to 1695). -/
def compareListsF : Nat → Value → List String → List Value → List Value →
    DState → DState
  | 0, _, _, _, _, s => s
  | fuel + 1, dstDoc, path, xs, ys, s =>
      compareListsAuxF fuel dstDoc path ys.length 0 xs ys s

/-- The index loop of _compare_lists: excess source elements are removed
(always referencing the destination length) and excess destination elements
are added at their index. -/
def compareListsAuxF : Nat → Value → List String → Nat → Nat → List Value →
    List Value → DState → DState
  | 0, _, _, _, _, _, _, s => s
  | _ + 1, _, _, _, _, [], [], s => s
  | fuel + 1, dstDoc, path, lenDst, k, [], y :: ys, s =>
      compareListsAuxF fuel dstDoc path lenDst (k + 1) [] ys
        (itemAdded path (.ik k) y s)
  | fuel + 1, dstDoc, path, lenDst, k, x :: xs, [], s =>
      compareListsAuxF fuel dstDoc path lenDst (k + 1) xs []
        (itemRemoved dstDoc path (.ik lenDst) x s)
  | fuel + 1, dstDoc, path, lenDst, k, x :: xs, y :: ys, s =>
      compareListsAuxF fuel dstDoc path lenDst (k + 1) xs ys
        (compareListItemF fuel dstDoc path k x y s)

/-- One position present in both lists: skipped when == equal, recursed
into when both are containers of the same kind, otherwise recorded as a
remove then an add at that index. -/
def compareListItemF : Nat → Value → List String → Nat → Value → Value →
    DState → DState
  | 0, _, _, _, _, _, s => s
  | fuel + 1, dstDoc, path, k, x, y, s =>
      if pyEq x y then s
      else
        match x, y with
        | .obj a, .obj b => compareDictsF fuel dstDoc (partsJoin path (some (.ik k))) a b s
        | .arr a, .arr b => compareListsF fuel dstDoc (partsJoin path (some (.ik k))) a b s
        | _, _ => itemAdded path (.ik k) y (itemRemoved dstDoc path (.ik k) x s)

end

/-- Wire form of a pending operation (the dict the operation constructors
build). -/
def toRaw : POp → RawOp
  | .padd p v => mkAdd (pathStr p) v
  | .premove p => mkRemove (pathStr p)
  | .preplace p v => mkReplace (pathStr p) v
  | .pmove f p => mkMove (pathStr f) (pathStr p)

/-- The head of the pending list starts a mergeable pair: a remove
immediately followed by an add at the same location. -/
def mergeHead : POp → List POp → Bool
  | .premove p, .padd q _ :: _ => pathStr p = pathStr q
  | _, _ => false

/-- DiffBuilder.execute (code_2.py lines 1439 to 1462): walk the pending
list once, merging every adjacent (remove, add) pair at the same location
into a single replace carrying the add's value, and emitting every other
pending edit unchanged in order. -/
def executePending : List POp → List RawOp
  | [] => []
  | [op] => [toRaw op]
  | op1 :: op2 :: rest =>
      match op1, op2 with
      | .premove p, .padd q v =>
          if pathStr p = pathStr q then
            mkReplace (pathStr q) v :: executePending rest
          else toRaw op1 :: executePending (op2 :: rest)
      | _, _ => toRaw op1 :: executePending (op2 :: rest)
termination_by structural ops => ops

/-- JsonPatch.from_diff (code_2.py lines 1066 to 1135), the engine behind
make_patch: run the recursive comparison from the root and emit the merged
pending list as the patch.  The initial fuel is far above the bound on the
comparison's call depth (a measure bounded by four times the summed sizes
strictly decreases along every call chain). -/
def fromDiff (src dst : Value) : List RawOp :=
  executePending
    ((compareValuesF (4 * (vsize src + vsize dst) + 8) dst [] none src dst
        initDState).nodes.map (fun p => p.2))


/-- Document equality on JSON values per the data model: scalars by value
and type, arrays elementwise, objects by key lookup (insertion order is
irrelevant for equality). -/
def jsonEqv : Value → Value → Prop
  | .null, .null => True
  | .bool a, .bool b => a = b
  | .num a, .num b => a = b
  | .str a, .str b => a = b
  | .arr xs, .arr ys =>
      xs.length = ys.length ∧
        ∀ (i : Nat) (h1 : i < xs.length) (h2 : i < ys.length),
          jsonEqv xs[i] ys[i]
  | .obj a, .obj b =>
      (∀ k, (lookupV a k).isSome = (lookupV b k).isSome) ∧
        ∀ k v w, lookupV a k = some v → lookupV b k = some w → jsonEqv v w
  | _, _ => False
termination_by a b => sizeOf a + sizeOf b
decreasing_by
  · have hx := List.sizeOf_lt_of_mem (List.getElem_mem h1)
    have hy := List.sizeOf_lt_of_mem (List.getElem_mem h2)
    simp
    omega
  · rename_i hv hw
    have hx := sizeOf_lookupV a k v hv
    have hy := sizeOf_lookupV b k w hw
    simp
    omega

theorem jsonEqv_refl : ∀ (v : Value), jsonEqv v v
  | .null => by simp [jsonEqv]
  | .bool b => by simp [jsonEqv]
  | .num n => by simp [jsonEqv]
  | .str s => by simp [jsonEqv]
  | .arr xs => by
      simp only [jsonEqv]
      exact ⟨trivial, fun i h1 h2 => jsonEqv_refl xs[i]⟩
  | .obj kvs => by
      simp only [jsonEqv]
      refine ⟨fun k => trivial, fun k v w hv hw => ?_⟩
      rw [hv] at hw
      cases hw
      exact jsonEqv_refl v
termination_by v => sizeOf v
decreasing_by
  · have hx := List.sizeOf_lt_of_mem (List.getElem_mem h1)
    simp
    omega
  · have hx := sizeOf_lookupV kvs k v hv
    simp
    omega

theorem lookupV_setKey_self (kvs : List (String × Value)) (k : String) (v : Value) :
    lookupV (setKey kvs k v) k = some v := by
  induction kvs with
  | nil => simp [setKey, lookupV]
  | cons hd tl ih =>
      obtain ⟨k1, v1⟩ := hd
      by_cases h : k1 = k
      · simp [setKey, lookupV, h]
      · simp [setKey, lookupV, h, ih]

theorem lookupV_setKey_ne (kvs : List (String × Value)) (k k2 : String) (v : Value)
    (h : k2 ≠ k) : lookupV (setKey kvs k v) k2 = lookupV kvs k2 := by
  have h2 : k ≠ k2 := Ne.symm h
  induction kvs with
  | nil => simp [setKey, lookupV, h2]
  | cons hd tl ih =>
      obtain ⟨k1, v1⟩ := hd
      by_cases h1 : k1 = k
      · subst h1
        simp [setKey, lookupV, h2]
      · simp [setKey, lookupV, h1, ih]

theorem lookupV_eraseKey_ne (kvs : List (String × Value)) (k k2 : String)
    (h : k2 ≠ k) : lookupV (eraseKey kvs k) k2 = lookupV kvs k2 := by
  have h2 : k ≠ k2 := Ne.symm h
  induction kvs with
  | nil => simp [eraseKey, lookupV]
  | cons hd tl ih =>
      obtain ⟨k1, v1⟩ := hd
      by_cases h1 : k1 = k
      · subst h1
        simp [eraseKey, lookupV, h2]
      · simp [eraseKey, lookupV, h1, ih]

theorem setKey_setKey (kvs : List (String × Value)) (k : String) (a b : Value) :
    setKey (setKey kvs k a) k b = setKey kvs k b := by
  induction kvs with
  | nil => simp [setKey]
  | cons hd tl ih =>
      obtain ⟨k1, v1⟩ := hd
      by_cases h : k1 = k
      · simp [setKey, h]
      · simp [setKey, h, ih]

theorem insertAt_removeAt (xs : List Value) (n : Nat) (h : n < xs.length) :
    insertAt n xs[n] (removeAt n xs) = xs := by
  induction xs generalizing n with
  | nil => simp at h
  | cons x tl ih =>
      cases n with
      | zero => simp [insertAt, removeAt]
      | succ m =>
          have hm : m < tl.length := by simpa using h
          simp [insertAt, removeAt, ih m hm]

theorem removeAt_length (xs : List Value) (n : Nat) (h : n < xs.length) :
    (removeAt n xs).length = xs.length - 1 := by
  induction xs generalizing n with
  | nil => simp at h
  | cons x tl ih =>
      cases n with
      | zero => simp [removeAt]
      | succ m =>
          have hm : m < tl.length := by simpa using h
          simp [removeAt, ih m hm]
          omega

theorem getD_set_self (xs : List Value) (n : Nat) (a d : Value)
    (h : n < xs.length) : (xs.set n a).getD n d = a := by
  induction xs generalizing n with
  | nil => simp at h
  | cons x tl ih =>
      cases n with
      | zero => simp
      | succ m =>
          have hm : m < tl.length := by simpa using h
          simpa using ih m hm

theorem getD_eq_get (xs : List Value) (n : Nat) (d : Value) (h : n < xs.length) :
    xs.getD n d = xs.get ⟨n, h⟩ := by
  induction xs generalizing n with
  | nil => simp at h
  | cons x tl ih =>
      cases n with
      | zero => simp
      | succ m =>
          have hm : m < tl.length := by simpa using h
          simpa using ih m hm

theorem toLast_nil (doc : Value) : toLast doc [] = .ok (doc, none) := rfl

theorem toLast_single (doc : Value) (t : String) :
    toLast doc [t] =
      match getPart doc t with
      | .ok tok => .ok (doc, some tok)
      | .error e => .error e := rfl

theorem toLast_cons (doc : Value) (t r : String) (rs : List String) :
    toLast doc (t :: r :: rs) =
      match walkStep doc t with
      | .ok d => toLast d (r :: rs)
      | .error e => .error e := rfl

theorem placeAt_nil (doc c2 : Value) : placeAt doc [] c2 = c2 := rfl

theorem placeAt_single (doc c2 : Value) (t : String) : placeAt doc [t] c2 = c2 := rfl

theorem placeAt_obj_cons (kvs : List (String × Value)) (t r : String)
    (rs : List String) (c2 : Value) :
    placeAt (.obj kvs) (t :: r :: rs) c2 =
      .obj (setKey kvs t (placeAt ((lookupV kvs t).getD .null) (r :: rs) c2)) := rfl

theorem placeAt_arr_cons (xs : List Value) (t r : String) (rs : List String)
    (c2 : Value) (n : Nat) (hpi : parseArrayIndex t = some n) :
    placeAt (.arr xs) (t :: r :: rs) c2 =
      .arr (xs.set n (placeAt (xs.getD n .null) (r :: rs) c2)) := by
  show (match parseArrayIndex t with
        | some n => Value.arr (xs.set n (placeAt (xs.getD n .null) (r :: rs) c2))
        | none => Value.arr xs) = _
  rw [hpi]

theorem opAtParent_nil (f : Value → Option Token → Except PatchError Value)
    (doc : Value) : opAtParent f doc [] = f doc none := rfl

theorem opAtParent_single (f : Value → Option Token → Except PatchError Value)
    (doc : Value) (t : String) :
    opAtParent f doc [t] =
      match getPart doc t with
      | .ok tok => f doc (some tok)
      | .error e => .error e := rfl

theorem opAtParent_obj_cons (f : Value → Option Token → Except PatchError Value)
    (kvs : List (String × Value)) (t r : String) (rs : List String) (d : Value)
    (hll : lookupV kvs t = some d) :
    opAtParent f (.obj kvs) (t :: r :: rs) =
      match opAtParent f d (r :: rs) with
      | .ok v2 => .ok (.obj (setKey kvs t v2))
      | .error e => .error e := by
  show (match lookupV kvs t with
        | some v =>
            match opAtParent f v (r :: rs) with
            | Except.ok v2 => Except.ok (Value.obj (setKey kvs t v2))
            | Except.error e => Except.error e
        | none => Except.error PatchError.pointerError) = _
  rw [hll]

theorem opAtParent_arr_cons (f : Value → Option Token → Except PatchError Value)
    (xs : List Value) (t r : String) (rs : List String) (n : Nat)
    (hpi : parseArrayIndex t = some n) (hn : n < xs.length) :
    opAtParent f (.arr xs) (t :: r :: rs) =
      match opAtParent f (xs.get ⟨n, hn⟩) (r :: rs) with
      | .ok v2 => .ok (.arr (xs.set n v2))
      | .error e => .error e := by
  show (match parseArrayIndex t with
        | some n =>
            if h : n < xs.length then
              match opAtParent f (xs.get ⟨n, h⟩) (r :: rs) with
              | Except.ok v2 => Except.ok (Value.arr (xs.set n v2))
              | Except.error e => Except.error e
            else Except.error PatchError.pointerError
        | none => Except.error PatchError.pointerError) = _
  rw [hpi]
  simp [hn]

/-- A successful to_last resolution determines what any container-level
mutation does to the whole document: the operation runs on the resolved
parent and the result is spliced back along the resolved path. -/
theorem opAtParent_toLast (f : Value → Option Token → Except PatchError Value) :
    ∀ (parts : List String) (doc c : Value) (tok : Option Token),
      toLast doc parts = .ok (c, tok) →
      opAtParent f doc parts = Except.map (placeAt doc parts) (f c tok)
  | [], doc, c, tok, h => by
      rw [toLast_nil] at h
      simp only [Except.ok.injEq, Prod.mk.injEq] at h
      obtain ⟨rfl, rfl⟩ := h
      rw [opAtParent_nil]
      cases hf : f doc none <;> simp [Except.map, placeAt_nil, hf]
  | [t], doc, c, tok, h => by
      rw [toLast_single] at h
      cases hg : getPart doc t with
      | error e => rw [hg] at h; simp at h
      | ok tk =>
          rw [hg] at h
          simp only [Except.ok.injEq, Prod.mk.injEq] at h
          obtain ⟨rfl, rfl⟩ := h
          rw [opAtParent_single, hg]
          cases hf : f doc (some tk) <;> simp [Except.map, placeAt_single, hf]
  | t :: r :: rs, doc, c, tok, h => by
      rw [toLast_cons] at h
      cases hw : walkStep doc t with
      | error e => rw [hw] at h; simp at h
      | ok d =>
          rw [hw] at h
          have ih := opAtParent_toLast f (r :: rs) d c tok h
          cases doc with
          | obj kvs =>
              have hll : lookupV kvs t = some d := by
                simp only [walkStep] at hw
                cases hl2 : lookupV kvs t <;> rw [hl2] at hw <;> simp_all
              rw [opAtParent_obj_cons f kvs t r rs d hll, ih]
              cases hf : f c tok with
              | error e => simp [Except.map]
              | ok a =>
                  simp only [Except.map]
                  rw [placeAt_obj_cons, hll]
                  simp
          | arr xs =>
              cases hpi : parseArrayIndex t with
              | none => simp [walkStep, hpi] at hw
              | some n =>
                  by_cases hn : n < xs.length
                  · have hget : xs.get ⟨n, hn⟩ = d := by
                      simp [walkStep, hpi, hn] at hw
                      exact hw
                    rw [opAtParent_arr_cons f xs t r rs n hpi hn, hget, ih]
                    cases hf : f c tok with
                    | error e => simp [Except.map]
                    | ok a =>
                        simp only [Except.map]
                        rw [placeAt_arr_cons xs t r rs a n hpi,
                          getD_eq_get xs n Value.null hn, hget]
                  · simp [walkStep, hpi, hn] at hw
          | null => simp [walkStep] at hw
          | bool b => simp [walkStep] at hw
          | num n => simp [walkStep] at hw
          | str s => simp [walkStep] at hw

/-- The two values are containers of the same kind (or scalars of the same
kind); getPart interprets tokens identically against them. -/
def sameKind : Value → Value → Bool
  | .null, .null => true
  | .bool _, .bool _ => true
  | .num _, .num _ => true
  | .str _, .str _ => true
  | .arr _, .arr _ => true
  | .obj _, .obj _ => true
  | _, _ => false

theorem getPart_kind (c c2 : Value) (t : String) (h : sameKind c c2 = true) :
    getPart c t = getPart c2 t := by
  cases c <;> cases c2 <;> simp [sameKind] at h <;> simp [getPart]

theorem set_get_self (xs : List Value) (n : Nat) (a : Value)
    (h : n < (xs.set n a).length) : (xs.set n a)[n] = a := by
  induction xs generalizing n with
  | nil => simp at h
  | cons x tl ih =>
      cases n with
      | zero => simp
      | succ m =>
          have hm : m < (tl.set m a).length := by simpa using h
          simpa using ih m hm

theorem set_get_self2 (xs : List Value) (n : Nat) (a : Value)
    (h : n < (xs.set n a).length) : (xs.set n a).get ⟨n, h⟩ = a :=
  set_get_self xs n a h

theorem get_set_ne (xs : List Value) (n i : Nat) (a : Value) (hne : i ≠ n)
    (h1 : i < (xs.set n a).length) (h2 : i < xs.length) :
    (xs.set n a)[i] = xs[i] := by
  induction xs generalizing n i with
  | nil => simp at h2
  | cons x tl ih =>
      cases n with
      | zero =>
          cases i with
          | zero => exact absurd rfl hne
          | succ j => simp
      | succ m =>
          cases i with
          | zero => simp
          | succ j =>
              have hj1 : j < (tl.set m a).length := by simpa using h1
              have hj2 : j < tl.length := by simpa using h2
              have hjm : j ≠ m := fun hh => hne (by rw [hh])
              simpa using ih m j hjm hj1 hj2

theorem set_set_self (xs : List Value) (n : Nat) (a b : Value) :
    (xs.set n a).set n b = xs.set n b := by
  induction xs generalizing n with
  | nil => simp
  | cons x tl ih =>
      cases n with
      | zero => simp
      | succ m => simpa using ih m

/-- Re-resolution after a splice: replacing the resolved parent with a
container of the same kind leaves the pointer resolving to the new
container with the same interpreted token. -/
theorem toLast_placeAt :
    ∀ (parts : List String) (doc c : Value) (tok : Option Token) (c2 : Value),
      toLast doc parts = .ok (c, tok) → sameKind c c2 = true →
      toLast (placeAt doc parts c2) parts = .ok (c2, tok)
  | [], doc, c, tok, c2, h, hk => by
      rw [toLast_nil] at h
      simp only [Except.ok.injEq, Prod.mk.injEq] at h
      obtain ⟨rfl, rfl⟩ := h
      rw [placeAt_nil, toLast_nil]
  | [t], doc, c, tok, c2, h, hk => by
      rw [toLast_single] at h
      cases hg : getPart doc t with
      | error e => rw [hg] at h; simp at h
      | ok tk =>
          rw [hg] at h
          simp only [Except.ok.injEq, Prod.mk.injEq] at h
          obtain ⟨rfl, rfl⟩ := h
          rw [placeAt_single, toLast_single, ← getPart_kind doc c2 t hk, hg]
  | t :: r :: rs, doc, c, tok, c2, h, hk => by
      rw [toLast_cons] at h
      cases hw : walkStep doc t with
      | error e => rw [hw] at h; simp at h
      | ok d =>
          rw [hw] at h
          have ih := toLast_placeAt (r :: rs) d c tok c2 h hk
          cases doc with
          | obj kvs =>
              have hll : lookupV kvs t = some d := by
                simp only [walkStep] at hw
                cases hl2 : lookupV kvs t <;> rw [hl2] at hw <;> simp_all
              rw [placeAt_obj_cons, hll, Option.getD_some, toLast_cons]
              have hw2 : walkStep
                  (Value.obj (setKey kvs t (placeAt d (r :: rs) c2))) t =
                  .ok (placeAt d (r :: rs) c2) := by
                simp [walkStep, lookupV_setKey_self]
              rw [hw2]
              exact ih
          | arr xs =>
              cases hpi : parseArrayIndex t with
              | none => simp [walkStep, hpi] at hw
              | some n =>
                  by_cases hn : n < xs.length
                  · have hget : xs.get ⟨n, hn⟩ = d := by
                      simp [walkStep, hpi, hn] at hw
                      exact hw
                    rw [placeAt_arr_cons xs t r rs c2 n hpi,
                      getD_eq_get xs n Value.null hn, hget, toLast_cons]
                    have hn2 : n < (xs.set n (placeAt d (r :: rs) c2)).length := by
                      simpa using hn
                    have hw2 : walkStep
                        (Value.arr (xs.set n (placeAt d (r :: rs) c2))) t =
                        .ok (placeAt d (r :: rs) c2) := by
                      simp only [walkStep, hpi, dif_pos hn2]
                      rw [set_get_self2]
                    rw [hw2]
                    exact ih
                  · simp [walkStep, hpi, hn] at hw
          | null => simp [walkStep] at hw
          | bool b => simp [walkStep] at hw
          | num n => simp [walkStep] at hw
          | str s => simp [walkStep] at hw

/-- Splicing twice along the same resolved pointer keeps only the second
splice. -/
theorem placeAt_placeAt :
    ∀ (parts : List String) (doc c : Value) (tok : Option Token) (a b : Value),
      toLast doc parts = .ok (c, tok) →
      placeAt (placeAt doc parts a) parts b = placeAt doc parts b
  | [], _, _, _, a, b, _ => rfl
  | [t], _, _, _, a, b, _ => rfl
  | t :: r :: rs, doc, c, tok, a, b, h => by
      rw [toLast_cons] at h
      cases hw : walkStep doc t with
      | error e => rw [hw] at h; simp at h
      | ok d =>
          rw [hw] at h
          have ih := placeAt_placeAt (r :: rs) d c tok a b h
          cases doc with
          | obj kvs =>
              have hll : lookupV kvs t = some d := by
                simp only [walkStep] at hw
                cases hl2 : lookupV kvs t <;> rw [hl2] at hw <;> simp_all
              rw [placeAt_obj_cons, hll, Option.getD_some,
                placeAt_obj_cons, lookupV_setKey_self, Option.getD_some,
                setKey_setKey, ih, placeAt_obj_cons, hll, Option.getD_some]
          | arr xs =>
              cases hpi : parseArrayIndex t with
              | none => simp [walkStep, hpi] at hw
              | some n =>
                  by_cases hn : n < xs.length
                  · have hget : xs.get ⟨n, hn⟩ = d := by
                      simp [walkStep, hpi, hn] at hw
                      exact hw
                    have hn2 : n < (xs.set n (placeAt d (r :: rs) a)).length := by
                      simpa using hn
                    rw [placeAt_arr_cons xs t r rs a n hpi,
                      getD_eq_get xs n Value.null hn, hget,
                      placeAt_arr_cons _ t r rs b n hpi,
                      getD_eq_get _ n Value.null hn2, set_get_self2,
                      set_set_self, ih,
                      placeAt_arr_cons xs t r rs b n hpi,
                      getD_eq_get xs n Value.null hn, hget]
                  · simp [walkStep, hpi, hn] at hw
          | null => simp [walkStep] at hw
          | bool b2 => simp [walkStep] at hw
          | num n => simp [walkStep] at hw
          | str s => simp [walkStep] at hw

/-- Congruence: splicing in a container document-equal to the resolved one
yields a document equal to the original. -/
theorem jsonEqv_placeAt :
    ∀ (parts : List String) (doc c : Value) (tok : Option Token) (c2 : Value),
      toLast doc parts = .ok (c, tok) → jsonEqv c c2 →
      jsonEqv doc (placeAt doc parts c2)
  | [], doc, c, tok, c2, h, hj => by
      rw [toLast_nil] at h
      simp only [Except.ok.injEq, Prod.mk.injEq] at h
      obtain ⟨rfl, rfl⟩ := h
      rw [placeAt_nil]
      exact hj
  | [t], doc, c, tok, c2, h, hj => by
      rw [toLast_single] at h
      cases hg : getPart doc t with
      | error e => rw [hg] at h; simp at h
      | ok tk =>
          rw [hg] at h
          simp only [Except.ok.injEq, Prod.mk.injEq] at h
          obtain ⟨rfl, rfl⟩ := h
          rw [placeAt_single]
          exact hj
  | t :: r :: rs, doc, c, tok, c2, h, hj => by
      rw [toLast_cons] at h
      cases hw : walkStep doc t with
      | error e => rw [hw] at h; simp at h
      | ok d =>
          rw [hw] at h
          have ih := jsonEqv_placeAt (r :: rs) d c tok c2 h hj
          cases doc with
          | obj kvs =>
              have hll : lookupV kvs t = some d := by
                simp only [walkStep] at hw
                cases hl2 : lookupV kvs t <;> rw [hl2] at hw <;> simp_all
              rw [placeAt_obj_cons, hll, Option.getD_some]
              simp only [jsonEqv]
              constructor
              · intro k
                by_cases hkt : k = t
                · subst hkt
                  rw [hll, lookupV_setKey_self]
                  rfl
                · rw [lookupV_setKey_ne kvs t k _ hkt]
              · intro k v w hv hw2
                by_cases hkt : k = t
                · subst hkt
                  rw [hll] at hv
                  rw [lookupV_setKey_self] at hw2
                  cases hv
                  cases hw2
                  exact ih
                · rw [lookupV_setKey_ne kvs t k _ hkt] at hw2
                  rw [hv] at hw2
                  cases hw2
                  exact jsonEqv_refl v
          | arr xs =>
              cases hpi : parseArrayIndex t with
              | none => simp [walkStep, hpi] at hw
              | some n =>
                  by_cases hn : n < xs.length
                  · have hget : xs.get ⟨n, hn⟩ = d := by
                      simp [walkStep, hpi, hn] at hw
                      exact hw
                    rw [placeAt_arr_cons xs t r rs c2 n hpi,
                      getD_eq_get xs n Value.null hn, hget]
                    simp only [jsonEqv]
                    refine ⟨by simp, fun i h1 h2 => ?_⟩
                    by_cases hin : i = n
                    · subst hin
                      rw [set_get_self xs i _ h2]
                      have hgi : xs[i] = d := hget
                      rw [hgi]
                      exact ih
                    · rw [get_set_ne xs n i _ hin h2 h1]
                      exact jsonEqv_refl _
                  · simp [walkStep, hpi, hn] at hw
          | null => simp [walkStep] at hw
          | bool b => simp [walkStep] at hw
          | num n => simp [walkStep] at hw
          | str s => simp [walkStep] at hw

theorem fetchTok_none (c : Value) (v : Value) : fetchTok c none ≠ .ok v := by
  cases c <;> simp [fetchTok]

/-- Removing the fetched value and adding it back at the same resolved
token succeeds and restores a document-equal container (for objects the
re-added key moves to the end, which document equality ignores). -/
theorem removeF_addF_restore (c : Value) (tk : Token) (v : Value)
    (hf : fetchTok c (some tk) = .ok v) :
    ∃ c1 c2, removeF c (some tk) = .ok c1 ∧ addF v c1 (some tk) = .ok c2 ∧
      sameKind c c1 = true ∧ jsonEqv c c2 := by
  cases c with
  | obj kvs =>
      cases tk with
      | key s =>
          cases hl : lookupV kvs s with
          | none => simp [fetchTok, hl] at hf
          | some v0 =>
              have hv : v0 = v := by
                simp [fetchTok, hl] at hf
                exact hf
              subst hv
              refine ⟨.obj (eraseKey kvs s), .obj (setKey (eraseKey kvs s) s v0),
                ?_, ?_, rfl, ?_⟩
              · simp [removeF, hl]
              · simp [addF]
              · simp only [jsonEqv]
                constructor
                · intro k
                  by_cases hks : k = s
                  · subst hks
                    rw [hl, lookupV_setKey_self]
                  · rw [lookupV_setKey_ne _ s k _ hks, lookupV_eraseKey_ne _ s k hks]
                · intro k a b ha hb
                  by_cases hks : k = s
                  · subst hks
                    rw [hl] at ha
                    cases ha
                    rw [lookupV_setKey_self] at hb
                    cases hb
                    exact jsonEqv_refl _
                  · rw [lookupV_setKey_ne _ s k _ hks,
                      lookupV_eraseKey_ne _ s k hks, ha] at hb
                    cases hb
                    exact jsonEqv_refl _
      | idx n => simp [fetchTok] at hf
      | dash => simp [fetchTok] at hf
  | arr xs =>
      cases tk with
      | idx n =>
          by_cases hn : n < xs.length
          · have hv : xs[n] = v := by
              simp [fetchTok, hn] at hf
              exact hf
            refine ⟨.arr (removeAt n xs), .arr xs, ?_, ?_, rfl, jsonEqv_refl _⟩
            · simp [removeF, hn]
            · have hlen := removeAt_length xs n hn
              have hgt : ¬ n > (removeAt n xs).length := by omega
              simp only [addF]
              rw [if_neg hgt, ← hv, insertAt_removeAt xs n hn]
          · simp [fetchTok, hn] at hf
      | key s => simp [fetchTok] at hf
      | dash => simp [fetchTok] at hf
  | null => simp [fetchTok] at hf
  | bool b => simp [fetchTok] at hf
  | num n => simp [fetchTok] at hf
  | str s => simp [fetchTok] at hf

mutual

theorem deepcopy_eq : ∀ (v : Value), deepcopy v = v
  | .null => rfl
  | .bool b => rfl
  | .num n => rfl
  | .str s => rfl
  | .arr xs => by rw [deepcopy, deepcopyList_eq xs]
  | .obj kvs => by rw [deepcopy, deepcopyObj_eq kvs]

theorem deepcopyList_eq : ∀ (xs : List Value), deepcopyList xs = xs
  | [] => rfl
  | x :: xs => by rw [deepcopyList, deepcopy_eq x, deepcopyList_eq xs]

theorem deepcopyObj_eq : ∀ (kvs : List (String × Value)), deepcopyObj kvs = kvs
  | [] => rfl
  | (k, v) :: rest => by rw [deepcopyObj, deepcopy_eq v, deepcopyObj_eq rest]

end

/-- On a document where the from pointer fetches a value, removing at that
pointer and re-adding the fetched value at the same pointer succeeds and
produces a document equal to the original. -/
theorem removeAdd_noop (doc : Value) (P : List String) (c : Value) (tk : Token)
    (v : Value) (ht : toLast doc P = .ok (c, some tk))
    (hf : fetchTok c (some tk) = .ok v) :
    ∃ r2, (match removeApply doc P with
           | .ok d => addApply d P v
           | .error e => .error e) = .ok r2 ∧ jsonEqv doc r2 := by
  obtain ⟨c1, c2, hr, ha, hk1, hj⟩ := removeF_addF_restore c tk v hf
  have h1 : removeApply doc P = .ok (placeAt doc P c1) := by
    rw [removeApply, opAtParent_toLast removeF P doc c (some tk) ht, hr]
    rfl
  have ht2 : toLast (placeAt doc P c1) P = .ok (c1, some tk) :=
    toLast_placeAt P doc c (some tk) c1 ht hk1
  have h2 : addApply (placeAt doc P c1) P v =
      .ok (placeAt (placeAt doc P c1) P c2) := by
    rw [addApply, opAtParent_toLast (addF v) P (placeAt doc P c1) c1 (some tk) ht2, ha]
    rfl
  refine ⟨placeAt doc P c2, ?_, jsonEqv_placeAt P doc c (some tk) c2 ht hj⟩
  rw [h1]
  show addApply (placeAt doc P c1) P v = .ok (placeAt doc P c2)
  rw [h2, placeAt_placeAt P doc c (some tk) c1 c2 ht]

/-- C1.  The claimed round trip (applying make_patch(A, B) to A yields B for
all acyclic documents) fails on the code at A = [1], B = [true]: the list
comparison in _compare_dicts uses plain Python ==, under which 1 == True, so
the diff is empty and applying it returns [1], not [true].  The code's own
comment in _compare_values states that a plain == must not be relied on
precisely because it cannot distinguish 1 from True, so the list branch
contradicts the code's documented intent; this theorem evaluates the code at
the failing input. -/
theorem C1_roundTrip_code_bug :
    fromDiff (Value.arr [Value.num 1]) (Value.arr [Value.bool true]) = [] ∧
    jsonPatchApply (Value.arr [Value.num 1])
      (fromDiff (Value.arr [Value.num 1]) (Value.arr [Value.bool true])) =
      .ok (Value.arr [Value.num 1]) ∧
    Value.arr [Value.num 1] ≠ Value.arr [Value.bool true] := by
  refine ⟨rfl, rfl, ?_⟩
  intro h
  simp at h

/-- C2.  For src a-to-b key rename with an unchanged array value,
make_patch returns exactly one operation: a move with from /a and path /b,
and in particular no remove or add operation. -/
theorem C2_moveDetection :
    fromDiff (Value.obj [("a", Value.arr [Value.num 1, Value.num 2, Value.num 3])])
      (Value.obj [("b", Value.arr [Value.num 1, Value.num 2, Value.num 3])]) =
      [mkMove "/a" "/b"] := rfl

/-- C8.  Applying a patch with in_place false leaves the caller's document
unchanged, also when an operation fails partway through: the engine works
on a deep copy, and the copy is value-equal to the original, so the call's
outcome is the same as running the operation loop on the original while the
caller's binding is untouched. -/
theorem C8_notInPlacePreservesCaller :
    ∀ (doc : Value) (patch : List RawOp),
      (applyCall doc patch false).1 = doc ∧
      (applyCall doc patch false).2 = applyOpsTrace doc patch := by
  intro doc patch
  constructor
  · simp [applyCall]
  · simp [applyCall, deepcopy_eq]

/-- C10.  A test operation whose path fails to resolve raises TestFailed
(the pointer resolution failure is converted), not a pointer error and not
Conflict. -/
theorem C10_testPointerFailure :
    (∀ (doc : Value) (parts : List String) (v? : Option Value),
        resolveVal doc parts = .error .pointerError →
        testApply doc parts v? = .error .testFailed) ∧
    PatchError.testFailed ≠ PatchError.pointerError ∧
    PatchError.testFailed ≠ PatchError.conflict := by
  refine ⟨?_, by decide, by decide⟩
  intro doc parts v? h
  simp [testApply, h]

theorem C10_testPointerFailure_witness :
    testApply (Value.obj [("a", Value.num 1)]) ["b"] none = .error .testFailed :=
  C10_testPointerFailure.1 (Value.obj [("a", Value.num 1)]) ["b"] none rfl

/-- C5, counterexample.  The claim says testing the value true against a
document position holding the number 1 fails with TestFailed; in the code
the comparison is plain Python ==, under which 1 == True, so the test
succeeds and the apply returns the document unchanged. -/
theorem C5_testTypeSensitive_counterexample :
    jsonPatchApply (Value.obj [("x", Value.num 1)]) [mkTest "/x" (Value.bool true)] =
      .ok (Value.obj [("x", Value.num 1)]) ∧
    jsonPatchApply (Value.obj [("x", Value.num 1)]) [mkTest "/x" (Value.bool true)] ≠
      .error .testFailed := by
  constructor
  · rfl
  · intro h
    have h0 : jsonPatchApply (Value.obj [("x", Value.num 1)])
        [mkTest "/x" (Value.bool true)] = .ok (Value.obj [("x", Value.num 1)]) := rfl
    rw [h0] at h
    exact Except.noConfusion h

/-- C6, counterexample.  The claim says a replace whose final path token is
the dash fails with Conflict; the code raises InvalidJsonPatch for that
token, a different error. -/
theorem C6_replaceDash_counterexample :
    jsonPatchApply (Value.obj [("a", Value.arr [Value.num 1, Value.num 2])])
      [mkReplace "/a/-" (Value.num 9)] = .error .invalidPatch ∧
    PatchError.invalidPatch ≠ PatchError.conflict := ⟨rfl, by decide⟩

/-- C7, counterexample.  The claim says patch construction fails with
InvalidPatch before any apply whenever an add operation lacks its value
member; constructing a patch from exactly such an operation succeeds (the
value member is only fetched when the operation is applied). -/
theorem C7_lazyFieldValidation_counterexample :
    validatePatch [⟨some (.str "add"), some (.str "/a"), none, none⟩] = .ok () ∧
    validatePatch [⟨some (.str "add"), some (.str "/a"), none, none⟩] ≠
      .error .invalidPatch := by
  constructor
  · rfl
  · intro h
    have h0 : validatePatch [⟨some (.str "add"), some (.str "/a"), none, none⟩] =
        .ok () := rfl
    rw [h0] at h
    exact Except.noConfusion h

/-- C3.  make_patch on x 1 versus x 2 yields exactly one replace at /x with
value 2; and in general the final emission pass merges two adjacent pending
edits that are a remove and an add at the same location, in that order,
into a single replace, emitting every other edit unchanged in order. -/
theorem C3_removeAddMerge :
    fromDiff (Value.obj [("x", Value.num 1)]) (Value.obj [("x", Value.num 2)]) =
      [mkReplace "/x" (Value.num 2)] ∧
    (∀ (p q : List String) (v : Value) (rest : List POp),
        pathStr p = pathStr q →
        executePending (.premove p :: .padd q v :: rest) =
          mkReplace (pathStr q) v :: executePending rest) ∧
    (∀ (op1 : POp) (rest : List POp), mergeHead op1 rest = false →
        executePending (op1 :: rest) = toRaw op1 :: executePending rest) := by
  refine ⟨rfl, ?_, ?_⟩
  · intro p q v rest h
    simp [executePending, h]
  · intro op1 rest h
    cases op1 with
    | premove p =>
        cases rest with
        | nil => rfl
        | cons op2 rest2 =>
            cases op2 with
            | padd q v =>
                have hpq : ¬ pathStr p = pathStr q := by
                  simpa [mergeHead] using h
                simp [executePending, hpq]
            | premove q => rfl
            | preplace q v => rfl
            | pmove fq q => rfl
    | padd p v => cases rest with | nil => rfl | cons op2 rest2 => rfl
    | preplace p v => cases rest with | nil => rfl | cons op2 rest2 => rfl
    | pmove f p => cases rest with | nil => rfl | cons op2 rest2 => rfl

theorem C3_removeAddMerge_witness :
    executePending [POp.premove ["x"], POp.padd ["x"] (Value.num 2)] =
      [mkReplace "/x" (Value.num 2)] ∧
    executePending [POp.preplace ["y"] (Value.num 3)] =
      [mkReplace "/y" (Value.num 3)] :=
  ⟨(C3_removeAddMerge.2.1 ["x"] ["x"] (Value.num 2) [] rfl).trans rfl,
   (C3_removeAddMerge.2.2 (POp.preplace ["y"] (Value.num 3)) [] rfl).trans rfl⟩

/-- C4.  Adding into an array container: the dash token appends at the end;
an index token at most the length inserts there, shifting later elements
right; a larger index fails with Conflict.  Concretely, adding 5 at the
dash position of the array under key a turns 1,2 into 1,2,5, and adding at
index 9 of a two-element array fails with Conflict. -/
theorem C4_addArraySemantics :
    (∀ (doc : Value) (parts : List String) (xs : List Value) (v : Value),
        toLast doc parts = .ok (.arr xs, some .dash) →
        addApply doc parts v = .ok (placeAt doc parts (.arr (xs ++ [v])))) ∧
    (∀ (doc : Value) (parts : List String) (xs : List Value) (v : Value) (k : Nat),
        toLast doc parts = .ok (.arr xs, some (.idx k)) → k ≤ xs.length →
        addApply doc parts v = .ok (placeAt doc parts (.arr (insertAt k v xs)))) ∧
    (∀ (doc : Value) (parts : List String) (xs : List Value) (v : Value) (k : Nat),
        toLast doc parts = .ok (.arr xs, some (.idx k)) → xs.length < k →
        addApply doc parts v = .error .conflict) ∧
    jsonPatchApply (Value.obj [("a", Value.arr [Value.num 1, Value.num 2])])
      [mkAdd "/a/-" (Value.num 5)] =
      .ok (Value.obj [("a", Value.arr [Value.num 1, Value.num 2, Value.num 5])]) ∧
    jsonPatchApply (Value.obj [("a", Value.arr [Value.num 1, Value.num 2])])
      [mkAdd "/a/9" (Value.num 1)] = .error .conflict := by
  refine ⟨?_, ?_, ?_, rfl, rfl⟩
  · intro doc parts xs v h
    rw [addApply, opAtParent_toLast (addF v) parts doc (.arr xs) (some .dash) h]
    rfl
  · intro doc parts xs v k h hk
    rw [addApply, opAtParent_toLast (addF v) parts doc (.arr xs) (some (.idx k)) h]
    have hgt : ¬ k > xs.length := by omega
    simp only [addF]
    rw [if_neg hgt]
    rfl
  · intro doc parts xs v k h hk
    rw [addApply, opAtParent_toLast (addF v) parts doc (.arr xs) (some (.idx k)) h]
    have hgt : k > xs.length := by omega
    simp only [addF]
    rw [if_pos hgt]
    rfl

theorem C4_addArraySemantics_witness :
    addApply (Value.arr []) ["-"] (Value.num 7) = .ok (Value.arr [Value.num 7]) ∧
    addApply (Value.arr [Value.num 1]) ["3"] (Value.num 7) = .error .conflict :=
  ⟨C4_addArraySemantics.1 (Value.arr []) ["-"] [] (Value.num 7) rfl,
   C4_addArraySemantics.2.2.1 (Value.arr [Value.num 1]) ["3"] [Value.num 1]
     (Value.num 7) 3 rfl (by decide)⟩

/-- C5, amended.  A test operation whose path resolves succeeds exactly
when the resolved value equals the operation's value under Python equality,
which treats the boolean true as equal to the number 1 (so testing true
against 1 succeeds rather than failing); a mismatch raises TestFailed,
which remains a distinct error from Conflict. -/
theorem C5_testPythonEquality :
    (∀ (doc : Value) (parts : List String) (val v : Value),
        resolveVal doc parts = .ok val →
        (testApply doc parts (some v) = .ok doc ↔ pyEq val v = true) ∧
        (pyEq val v = false → testApply doc parts (some v) = .error .testFailed)) ∧
    pyEq (Value.num 1) (Value.bool true) = true ∧
    PatchError.testFailed ≠ PatchError.conflict := by
  refine ⟨?_, rfl, by decide⟩
  intro doc parts val v h
  refine ⟨⟨?_, ?_⟩, ?_⟩
  · intro ht
    by_cases hpe : pyEq val v = true
    · exact hpe
    · simp [testApply, h, hpe] at ht
  · intro hpe
    simp [testApply, h, hpe]
  · intro hpe
    simp [testApply, h, hpe]

theorem C5_testPythonEquality_witness :
    testApply (Value.obj [("x", Value.num 1)]) ["x"] (some (Value.bool true)) =
      .ok (Value.obj [("x", Value.num 1)]) :=
  ((C5_testPythonEquality.1 (Value.obj [("x", Value.num 1)]) ["x"]
      (Value.num 1) (Value.bool true) rfl).1).mpr rfl

/-- C6, amended.  A replace operation whose final token is the dash fails
with InvalidPatch (not Conflict); a replace at a missing object key, at an
out-of-range array index, or into a scalar (wrong container type) fails
with Conflict. -/
theorem C6_replaceErrorTaxonomy :
    (∀ (doc : Value) (parts : List String) (c : Value) (tok : Token) (v : Value),
        toLast doc parts = .ok (c, some tok) → isDashTok (some tok) = true →
        replaceApply doc parts v = .error .invalidPatch) ∧
    (∀ (doc : Value) (parts : List String) (kvs : List (String × Value))
        (s : String) (v : Value),
        toLast doc parts = .ok (.obj kvs, some (.key s)) → s ≠ "-" →
        lookupV kvs s = none →
        replaceApply doc parts v = .error .conflict) ∧
    (∀ (doc : Value) (parts : List String) (xs : List Value) (n : Nat) (v : Value),
        toLast doc parts = .ok (.arr xs, some (.idx n)) → xs.length ≤ n →
        replaceApply doc parts v = .error .conflict) ∧
    (∀ (doc : Value) (parts : List String) (c : Value) (s : String) (v : Value),
        toLast doc parts = .ok (c, some (.key s)) → isScalarV c = true → s ≠ "-" →
        replaceApply doc parts v = .error .conflict) := by
  refine ⟨?_, ?_, ?_, ?_⟩
  · intro doc parts c tok v h hd
    rw [replaceApply, opAtParent_toLast (replaceF v) parts doc c (some tok) h]
    simp [replaceF, hd, Except.map]
  · intro doc parts kvs s v h hs hl
    rw [replaceApply, opAtParent_toLast (replaceF v) parts doc (.obj kvs)
      (some (.key s)) h]
    simp [replaceF, isDashTok, hs, hl, Except.map]
  · intro doc parts xs n v h hn
    rw [replaceApply, opAtParent_toLast (replaceF v) parts doc (.arr xs)
      (some (.idx n)) h]
    simp only [replaceF, isDashTok]
    rw [if_neg (by simp), if_pos hn]
    rfl
  · intro doc parts c s v h hc hs
    rw [replaceApply, opAtParent_toLast (replaceF v) parts doc c
      (some (.key s)) h]
    cases c <;> simp [isScalarV] at hc <;> simp [replaceF, isDashTok, hs, Except.map]

theorem C6_replaceErrorTaxonomy_witness :
    replaceApply (Value.obj []) ["b"] (Value.num 1) = .error .conflict ∧
    replaceApply (Value.arr [Value.num 3]) ["-"] (Value.num 1) =
      .error .invalidPatch :=
  ⟨C6_replaceErrorTaxonomy.2.1 (Value.obj []) ["b"] [] "b" (Value.num 1) rfl
     (by decide) rfl,
   C6_replaceErrorTaxonomy.1 (Value.arr [Value.num 3]) ["-"] (Value.arr [Value.num 3])
     .dash (Value.num 1) rfl rfl⟩

/-- C7, amended.  Construction-time validation raises InvalidPatch when an
operation lacks the op member, when op is not a string or not a recognized
name, and when the path member is missing.  A missing value (add, replace,
test) or a missing from (move, copy) is not detected at construction: it
raises InvalidPatch only when that operation is applied, and for test only
after the path has resolved (an unresolvable path raises TestFailed
first). -/
theorem C7_validationSplit :
    (∀ (p v f : Option Value), checkOp ⟨none, p, v, f⟩ = .error .invalidPatch) ∧
    (∀ (x : Value) (p v f : Option Value), (∀ s, x ≠ .str s) →
        checkOp ⟨some x, p, v, f⟩ = .error .invalidPatch) ∧
    (∀ (s : String) (p v f : Option Value), ¬ knownOps.contains s →
        checkOp ⟨some (.str s), p, v, f⟩ = .error .invalidPatch) ∧
    (∀ (s : String) (v f : Option Value), knownOps.contains s →
        checkOp ⟨some (.str s), none, v, f⟩ = .error .invalidPatch) ∧
    (∀ (doc : Value) (p : String) (parts : List String), parsePointer p = .ok parts →
        applyRawOp doc ⟨some (.str "add"), some (.str p), none, none⟩ =
          .error .invalidPatch) ∧
    (∀ (doc : Value) (p : String) (parts : List String), parsePointer p = .ok parts →
        applyRawOp doc ⟨some (.str "replace"), some (.str p), none, none⟩ =
          .error .invalidPatch) ∧
    (∀ (doc : Value) (parts : List String) (val : Value),
        resolveVal doc parts = .ok val →
        testApply doc parts none = .error .invalidPatch) ∧
    (∀ (doc : Value) (p : String) (parts : List String) (v : Option Value),
        parsePointer p = .ok parts →
        applyRawOp doc ⟨some (.str "move"), some (.str p), v, none⟩ =
          .error .invalidPatch) ∧
    (∀ (doc : Value) (p : String) (parts : List String) (v : Option Value),
        parsePointer p = .ok parts →
        applyRawOp doc ⟨some (.str "copy"), some (.str p), v, none⟩ =
          .error .invalidPatch) := by
  refine ⟨?_, ?_, ?_, ?_, ?_, ?_, ?_, ?_, ?_⟩
  · intro p v f
    rfl
  · intro x p v f hx
    cases x <;> simp [checkOp]
    exact absurd rfl (hx _)
  · intro s p v f hs
    have hs2 : s ∉ knownOps := by simpa using hs
    simp [checkOp, hs2]
  · intro s v f hs
    simp [checkOp, hs]
  · intro doc p parts hp
    simp [applyRawOp, hp]
  · intro doc p parts hp
    simp [applyRawOp, hp]
  · intro doc parts val h
    simp [testApply, h]
  · intro doc p parts v hp
    simp [applyRawOp, hp]
  · intro doc p parts v hp
    simp [applyRawOp, hp]

theorem C7_validationSplit_witness :
    checkOp ⟨none, none, none, none⟩ = .error .invalidPatch ∧
    applyRawOp Value.null ⟨some (.str "add"), some (.str "/a"), none, none⟩ =
      .error .invalidPatch ∧
    applyRawOp Value.null ⟨some (.str "move"), some (.str "/a"), none, none⟩ =
      .error .invalidPatch :=
  ⟨C7_validationSplit.1 none none none,
   C7_validationSplit.2.2.2.2.1 Value.null "/a" ["a"] rfl,
   C7_validationSplit.2.2.2.2.2.2.2.1 Value.null "/a" ["a"] none rfl⟩

/-- C9.  On every document on which it succeeds, a move equals removing at
its from pointer and then adding the removed value at its path (equality of
documents, which ignores object entry order), and a copy equals adding a
deep copy of the value at its from pointer at its path; both therefore
inherit the bounds checks and dash semantics of standalone Add and
Remove. -/
theorem C9_moveCopyDelegation :
    (∀ (doc : Value) (f p : List String) (r : Value),
        moveApply doc f p = .ok r →
        ∃ (c v r2 : Value) (tok : Option Token),
          toLast doc f = .ok (c, tok) ∧ fetchTok c tok = .ok v ∧
          (match removeApply doc f with
           | .ok d => addApply d p v
           | .error e => .error e) = .ok r2 ∧
          jsonEqv r r2) ∧
    (∀ (doc : Value) (f p : List String) (r : Value),
        copyApply doc f p = .ok r →
        ∃ (c v : Value) (tok : Option Token),
          toLast doc f = .ok (c, tok) ∧ fetchTok c tok = .ok v ∧
          addApply doc p (deepcopy v) = .ok r) := by
  constructor
  · intro doc f p r hm
    rw [moveApply] at hm
    cases ht : toLast doc f with
    | error e => rw [ht] at hm; exact Except.noConfusion hm
    | ok pair =>
        obtain ⟨c, tok⟩ := pair
        rw [ht] at hm
        have hm2 : (match fetchTok c tok with
            | .error e => (.error e : Except PatchError Value)
            | .ok v =>
                if f = p then .ok doc
                else if isObjV c = true ∧ f.isPrefixOf p = true then .error .conflict
                else
                  match removeApply doc f with
                  | .error e => .error e
                  | .ok d => addApply d p v) = .ok r := hm
        cases hfv : fetchTok c tok with
        | error e => rw [hfv] at hm2; exact Except.noConfusion hm2
        | ok v =>
            rw [hfv] at hm2
            have hm3 : (if f = p then (Except.ok doc : Except PatchError Value)
                else if isObjV c = true ∧ f.isPrefixOf p = true then
                  .error .conflict
                else
                  match removeApply doc f with
                  | .error e => .error e
                  | .ok d => addApply d p v) = .ok r := hm2
            by_cases hfp : f = p
            · rw [if_pos hfp] at hm3
              simp only [Except.ok.injEq] at hm3
              subst hm3
              cases tok with
              | none => exact absurd hfv (fetchTok_none c v)
              | some tk =>
                  obtain ⟨r2, hr2, hj⟩ := removeAdd_noop doc f c tk v ht hfv
                  subst hfp
                  exact ⟨c, v, r2, some tk, rfl, hfv, hr2, hj⟩
            · rw [if_neg hfp] at hm3
              by_cases hg : isObjV c = true ∧ f.isPrefixOf p = true
              · rw [if_pos hg] at hm3
                exact Except.noConfusion hm3
              · rw [if_neg hg] at hm3
                have hm4 : (match removeApply doc f with
                    | .ok d => addApply d p v
                    | .error e => .error e) = .ok r := by
                  cases hrm : removeApply doc f with
                  | ok d => rw [hrm] at hm3; exact hm3
                  | error e => rw [hrm] at hm3; exact hm3
                exact ⟨c, v, r, tok, rfl, hfv, hm4, jsonEqv_refl r⟩
  · intro doc f p r hc
    rw [copyApply] at hc
    cases ht : toLast doc f with
    | error e => rw [ht] at hc; exact Except.noConfusion hc
    | ok pair =>
        obtain ⟨c, tok⟩ := pair
        rw [ht] at hc
        have hc2 : (match fetchTok c tok with
            | .error e => (.error e : Except PatchError Value)
            | .ok v => addApply doc p (deepcopy v)) = .ok r := hc
        cases hfv : fetchTok c tok with
        | error e => rw [hfv] at hc2; exact Except.noConfusion hc2
        | ok v =>
            rw [hfv] at hc2
            have hc3 : addApply doc p (deepcopy v) = .ok r := hc2
            exact ⟨c, v, tok, rfl, hfv, hc3⟩

theorem C9_moveCopyDelegation_witness :
    (∃ (c v r2 : Value) (tok : Option Token),
        toLast (Value.obj [("a", Value.num 1), ("b", Value.num 2)]) ["a"] =
          .ok (c, tok) ∧
        fetchTok c tok = .ok v ∧
        (match removeApply (Value.obj [("a", Value.num 1), ("b", Value.num 2)]) ["a"] with
         | .ok d => addApply d ["c"] v
         | .error e => .error e) = .ok r2 ∧
        jsonEqv (Value.obj [("b", Value.num 2), ("c", Value.num 1)]) r2) ∧
    (∃ (c v : Value) (tok : Option Token),
        toLast (Value.obj [("a", Value.num 1)]) ["a"] = .ok (c, tok) ∧
        fetchTok c tok = .ok v ∧
        addApply (Value.obj [("a", Value.num 1)]) ["c"] (deepcopy v) =
          .ok (Value.obj [("a", Value.num 1), ("c", Value.num 1)])) :=
  ⟨C9_moveCopyDelegation.1 (Value.obj [("a", Value.num 1), ("b", Value.num 2)])
     ["a"] ["c"] (Value.obj [("b", Value.num 2), ("c", Value.num 1)]) rfl,
   C9_moveCopyDelegation.2 (Value.obj [("a", Value.num 1)]) ["a"] ["c"]
     (Value.obj [("a", Value.num 1), ("c", Value.num 1)]) rfl⟩
